import Mathlib

/-!
# Aggregate: elementwise operators on fixed-size sequences

A shallow embedding of `include/aggregate.hpp` and `include/agg_operators.hpp`.

* `aggregate T N` is the fixed-size sequence `aggregate<T,N>`.
* C++ references are modelled as lvalues `Ref σ T` into an explicit program
  state `σ`; an operator that takes `aggregate<T,N>&` takes a
  `Ref σ (aggregate T N)` and threads the state.
* `tuple_map` / `tuple_map_void` are the two modes of `detail::tuple_map`.
* The `std::` algorithms used by the comparison and stream operators walk
  iterators, modelled as integer offsets from `data()`; reading outside the
  storage has no defined result (`none`). The pointer `data()` itself exists for
  `N ≥ 1` only (`aggregate.data`): the zero-length specialisation has no element
  whose address it could be.
-/

namespace agg

/-! ## Data model -/

/-- The container `aggregate<T,N>`: `N` values of type `T` held in `_elem`. -/
structure aggregate (T : Type) (N : Nat) where
  elem : List T
  size_eq : elem.length = N

/-- The reference `__aggregate_traits<T,N>::ref(t, n)` to element `n` of the storage,
for an index inside the storage. -/
def aggregate.ref {T : Type} {N : Nat} (a : aggregate T N) (n : Nat) (h : n < N) : T :=
  a.elem.get ⟨n, by rw [a.size_eq]; exact h⟩

/-- Writing `v` through the reference `ref(t, n)`. -/
def aggregate.store {T : Type} {N : Nat} (a : aggregate T N) (n : Nat) (v : T) :
    aggregate T N :=
  ⟨a.elem.set n v, by rw [List.length_set]; exact a.size_eq⟩

/-- The member `operator[](n)`: no bounds check in the source, so an index outside the
storage has no defined result. -/
def aggregate.index {T : Type} {N : Nat} (a : aggregate T N) (n : Nat) : Option T :=
  a.elem.get? n

/-- An lvalue of type `T` inside a program state `σ` (a C++ reference `T&` or
`const T&`): how to read it and how to write it. -/
structure Ref (σ : Type) (T : Type) where
  get : σ → T
  set : σ → T → σ

/-- A `const T&` bound to a temporary (a prvalue operand such as the `3` of `x + 3`):
it reads the same value in every state and is never written. -/
def Ref.temporary {σ T : Type} (v : T) : Ref σ T :=
  ⟨fun _ => v, fun s _ => s⟩

/-- The left object of a state that holds two objects. -/
def Ref.fst {A B : Type} : Ref (A × B) A :=
  ⟨fun s => s.1, fun s v => (v, s.2)⟩

/-- The right object of a state that holds two objects. -/
def Ref.snd {A B : Type} : Ref (A × B) B :=
  ⟨fun s => s.2, fun s v => (s.1, v)⟩

/-- The object of a state that holds exactly one object. -/
def Ref.self {A : Type} : Ref A A :=
  ⟨fun s => s, fun _ v => v⟩

/-- The reference `std::get<I>(a)` to element `I` of the aggregate `a` refers to; the
source's `static_assert(I < N)` is the proof `h`. -/
def std_get {σ T : Type} {N : Nat} (I : Nat) (h : I < N) (a : Ref σ (aggregate T N)) :
    Ref σ T :=
  ⟨fun s => (a.get s).ref I h, fun s v => a.set s ((a.get s).store I v)⟩

/-! ## The broadcast engine (`namespace detail`) -/

/-- The recursion `generate_integer_sequence<T, N, Is...>`: the primary template prepends
`N-1` and recurses on `N-1`; the specialisation for `0` yields `Is...`. -/
def generate_integer_sequence : Nat → List Nat → List Nat
  | 0, Is => Is
  | N + 1, Is => generate_integer_sequence N (N :: Is)

/-- The alias `make_integer_sequence<T, N>`. -/
def make_integer_sequence (N : Nat) : List Nat :=
  generate_integer_sequence N []

/-- The alias `make_index_sequence<N>`. -/
def make_index_sequence (N : Nat) : List Nat :=
  make_integer_sequence N

theorem generate_integer_sequence_eq (N : Nat) (Is : List Nat) :
    generate_integer_sequence N Is = List.range N ++ Is := by
  induction N generalizing Is with
  | zero => simp [generate_integer_sequence]
  | succ n ih =>
    rw [generate_integer_sequence, ih, List.range_succ]
    simp

theorem make_index_sequence_eq (N : Nat) : make_index_sequence N = List.range N := by
  simp [make_index_sequence, make_integer_sequence, generate_integer_sequence_eq]

theorem make_index_sequence_bound (N : Nat) : ∀ I ∈ make_index_sequence N, I < N := by
  intro I hI
  rw [make_index_sequence_eq] at hI
  exact List.mem_range.mp hI

/-- The call `tuple_map_invoke<I>(f, ts...)`: `f` applied to the `I`-th element of every
tuple of the pack; `ts I h` stands for `std::get<I>(ts)...`. A function object is a
state transformer that also yields its result. -/
def tuple_map_invoke {σ X R : Type} {N : Nat} (I : Nat) (h : I < N) (f : X → σ → R × σ)
    (ts : (I : Nat) → I < N → X) : σ → R × σ :=
  f (ts I h)

/-- The value-producing `tuple_map_make_impl<R>::apply`: the braced list
`{tuple_map_invoke<I>(f, ts...)...}`, whose initialisers are evaluated left to right. -/
def tuple_map_make_impl.apply {σ X R : Type} {N : Nat} :
    (Is : List Nat) → (∀ I ∈ Is, I < N) → (X → σ → R × σ) → ((I : Nat) → I < N → X) →
    σ → List R × σ
  | [], _, _, _, s => ([], s)
  | I :: Is, h, f, ts, s =>
    let r := tuple_map_invoke I (h I (List.mem_cons_self I Is)) f ts s
    let rs := tuple_map_make_impl.apply Is (fun J hJ => h J (List.mem_cons_of_mem I hJ))
      f ts r.2
    (r.1 :: rs.1, rs.2)

/-- The side-effect `tuple_map_make_impl<void>::apply`: the initialiser list
`{ (tuple_map_invoke<I>(f, ts...), void(), 0)... }`, evaluated left to right, every
result discarded. (For an empty pack C++ cannot deduce `auto l = {}`; the model visits
nothing there.) -/
def tuple_map_make_impl_void.apply {σ X R : Type} {N : Nat} :
    (Is : List Nat) → (∀ I ∈ Is, I < N) → (X → σ → R × σ) → ((I : Nat) → I < N → X) →
    σ → σ
  | [], _, _, _, s => s
  | I :: Is, h, f, ts, s =>
    let r := tuple_map_invoke I (h I (List.mem_cons_self I Is)) f ts s
    tuple_map_make_impl_void.apply Is (fun J hJ => h J (List.mem_cons_of_mem I hJ))
      f ts r.2

theorem tuple_map_make_impl.apply_length {σ X R : Type} {N : Nat} (Is : List Nat)
    (h : ∀ I ∈ Is, I < N) (f : X → σ → R × σ) (ts : (I : Nat) → I < N → X) (s : σ) :
    (tuple_map_make_impl.apply Is h f ts s).1.length = Is.length := by
  induction Is generalizing s with
  | nil => rfl
  | cons I Is ih => simp [tuple_map_make_impl.apply, ih]

/-- The function `tuple_map<R>(f, t, ts...)` for `R = aggregate<R0,N>`: the index
sequence has the size `N` of the first tuple, and the braced list initialises the
result aggregate. -/
def tuple_map {σ X R : Type} (N : Nat) (f : X → σ → R × σ) (ts : (I : Nat) → I < N → X)
    (s : σ) : aggregate R N × σ :=
  let r := tuple_map_make_impl.apply (make_index_sequence N) (make_index_sequence_bound N)
    f ts s
  (⟨r.1, by
      rw [tuple_map_make_impl.apply_length, make_index_sequence_eq, List.length_range]⟩,
   r.2)

/-- The function `tuple_map<void>(f, t, ts...)`. -/
def tuple_map_void {σ X R : Type} (N : Nat) (f : X → σ → R × σ)
    (ts : (I : Nat) → I < N → X) (s : σ) : σ :=
  tuple_map_make_impl_void.apply (make_index_sequence N) (make_index_sequence_bound N)
    f ts s

/-! ## Element function objects (`namespace fn`) -/

/-- The function object `fn::NAME` of `BINARY_OP(NAME, OP)` at element types whose `OP`
is a non-mutating operator with value `op`: it reads both operands and yields
`lhs OP rhs`. -/
def fn.BINARY_OP {σ T U C : Type} (op : T → U → C) (lhs : Ref σ T) (rhs : Ref σ U) :
    σ → C × σ :=
  fun s => (op (lhs.get s) (rhs.get s), s)

/-- The function object `fn::NAME` of a compound assignment `BINARY_OP(NAME, OP=)` at
element types whose `lhs OP= rhs` stores `g lhs rhs` into `lhs` and yields `lhs`. -/
def fn.BINARY_OP_ASSIGN {σ T U : Type} (g : T → U → T) (lhs : Ref σ T) (rhs : Ref σ U) :
    σ → Ref σ T × σ :=
  fun s => (lhs, lhs.set s (g (lhs.get s) (rhs.get s)))

/-! ## Operator surface -/

/-- The first overload of `AGG_BIN_OP(NAME, OP)`:
`operator OP(const aggregate<T,N>& a, const aggregate<U,N>& b)`, where `NAME` is what
`fn::NAME()` does at the element types. -/
def AGG_BIN_OP.seq_seq {σ T U C : Type} {N : Nat} (NAME : Ref σ T → Ref σ U → σ → C × σ)
    (a : Ref σ (aggregate T N)) (b : Ref σ (aggregate U N)) : σ → aggregate C N × σ :=
  tuple_map N (fun x : Ref σ T × Ref σ U => NAME x.1 x.2)
    (fun I h => (std_get I h a, std_get I h b))

/-- The second overload of `AGG_BIN_OP(NAME, OP)`:
`operator OP(const aggregate<T,N>& a, const U& b)`, mapping the lambda
`[&](const T& t){return fn::NAME()(t,b);}` over `a`. -/
def AGG_BIN_OP.seq_scalar {σ T U C : Type} {N : Nat}
    (NAME : Ref σ T → Ref σ U → σ → C × σ)
    (a : Ref σ (aggregate T N)) (b : Ref σ U) : σ → aggregate C N × σ :=
  tuple_map N (fun t : Ref σ T => NAME t b) (fun I h => std_get I h a)

/-- The third overload of `AGG_BIN_OP(NAME, OP)`:
`operator OP(const T& a, const aggregate<U,N>& b)`, mapping the lambda
`[&](const U& u){return fn::NAME()(a,u);}` over `b`. -/
def AGG_BIN_OP.scalar_seq {σ T U C : Type} {N : Nat}
    (NAME : Ref σ T → Ref σ U → σ → C × σ)
    (a : Ref σ T) (b : Ref σ (aggregate U N)) : σ → aggregate C N × σ :=
  tuple_map N (fun u : Ref σ U => NAME a u) (fun I h => std_get I h b)

/-- The first overload of `AGG_BIN_OP_ASSIGN(NAME, OP)`:
`operator OP(aggregate<T,N>& a, const aggregate<U,N>& b)`; it returns the reference
`a`. -/
def AGG_BIN_OP_ASSIGN.seq_seq {σ T U R : Type} {N : Nat}
    (NAME : Ref σ T → Ref σ U → σ → R × σ)
    (a : Ref σ (aggregate T N)) (b : Ref σ (aggregate U N)) (s : σ) :
    Ref σ (aggregate T N) × σ :=
  (a, tuple_map_void N (fun x : Ref σ T × Ref σ U => NAME x.1 x.2)
    (fun I h => (std_get I h a, std_get I h b)) s)

/-- The second overload of `AGG_BIN_OP_ASSIGN(NAME, OP)`:
`operator OP(aggregate<T,N>& a, const U& b)`, mapping the lambda
`[&](T& t) { return fn::NAME()(t,b); }` over `a`; it returns the reference `a`. -/
def AGG_BIN_OP_ASSIGN.seq_scalar {σ T U R : Type} {N : Nat}
    (NAME : Ref σ T → Ref σ U → σ → R × σ)
    (a : Ref σ (aggregate T N)) (b : Ref σ U) (s : σ) : Ref σ (aggregate T N) × σ :=
  (a, tuple_map_void N (fun t : Ref σ T => NAME t b) (fun I h => std_get I h a) s)

/-- The length-`N` sequence of `N` copies of `v`, the right-hand side of the scalar
broadcast law. -/
def copies {T : Type} (N : Nat) (v : T) : aggregate T N :=
  ⟨List.replicate N v, List.length_replicate N v⟩

/-! ## Overload selection for nested operands -/

/-- The operand types the generated operators are instantiated at: an element type
that is not an aggregate, or `aggregate<T,N>`. -/
inductive Ty where
  | scalar : Ty
  | seq : Ty → Nat → Ty

/-- The values of an operand type over the scalar type `S`. -/
def Ty.denote (S : Type) : Ty → Type
  | .scalar => S
  | .seq T N => aggregate (T.denote S) N

/-- A well-formed expression `t1 OP t2` with its selected definition and result type `r`
(`NAME_result_t<t1,t2>`): the element type's own operator, or one of the three overloads
of `AGG_BIN_OP`, each with the expression its `fn::NAME()` resolves to at the element
types (the `enable_if<has_NAME<T,U>, aggregate<NAME_result_t<T,U>,N>>` of the source). -/
inductive Overload : Ty → Ty → Ty → Type where
  | builtin : Overload .scalar .scalar .scalar
  | seq_seq {T U R : Ty} (N : Nat) :
    Overload T U R → Overload (.seq T N) (.seq U N) (.seq R N)
  | seq_scalar {T U R : Ty} (N : Nat) :
    Overload T U R → Overload (.seq T N) U (.seq R N)
  | scalar_seq {T U R : Ty} (N : Nat) :
    Overload T U R → Overload T (.seq U N) (.seq R N)

/-- Overload resolution of `t1 OP t2` over the element operator and the three templates of
`AGG_BIN_OP`. An overload is viable when its parameters match and its `has_NAME<T,U>`
holds, which is that `T OP U` itself resolves. The (sequence, sequence) template is more
specialised than the two others and wins when viable; (sequence, scalar) and
(scalar, sequence) are unordered, so when both are viable the call is ambiguous and
nothing is selected. -/
def resolve : (t1 t2 : Ty) → Option ((r : Ty) × Overload t1 t2 r)
  | .scalar, .scalar => some ⟨.scalar, .builtin⟩
  | .seq T N, .scalar =>
    match resolve T .scalar with
    | some ⟨R, p⟩ => some ⟨.seq R N, .seq_scalar N p⟩
    | none => none
  | .scalar, .seq U M =>
    match resolve .scalar U with
    | some ⟨R, p⟩ => some ⟨.seq R M, .scalar_seq M p⟩
    | none => none
  | .seq T N, .seq U M =>
    let both : Option ((r : Ty) × Overload (.seq T N) (.seq U M) r) :=
      if h : N = M then
        match resolve T U with
        | some ⟨R, p⟩ => some ⟨.seq R N, h ▸ Overload.seq_seq N p⟩
        | none => none
      else none
    match both with
    | some o => some o
    | none =>
      match resolve T (.seq U M), resolve (.seq T N) U with
      | some ⟨R, p⟩, none => some ⟨.seq R N, .seq_scalar N p⟩
      | none, some ⟨R, p⟩ => some ⟨.seq R M, .scalar_seq M p⟩
      | _, _ => none
termination_by t1 t2 => sizeOf t1 + sizeOf t2
decreasing_by all_goals (simp_wf; omega)

/-- The trait `has_NAME<T1,T2>` of `BINARY_TRAIT` (no result type given): whether
`T1 OP T2` is well-formed. -/
def has_NAME (t1 t2 : Ty) : Bool :=
  (resolve t1 t2).isSome

/-- What a selected definition computes: the element operator `op` on scalars, and the
matching overload of `AGG_BIN_OP` on aggregates, whose `fn::NAME()` is the selected
definition at the element types. -/
def Overload.run {S σ : Type} (op : S → S → S) :
    {t1 t2 r : Ty} → Overload t1 t2 r →
    Ref σ (t1.denote S) → Ref σ (t2.denote S) → σ → r.denote S × σ
  | _, _, _, .builtin => fn.BINARY_OP op
  | _, _, _, .seq_seq _ p => AGG_BIN_OP.seq_seq (Overload.run op p)
  | _, _, _, .seq_scalar _ p => AGG_BIN_OP.seq_scalar (Overload.run op p)
  | _, _, _, .scalar_seq _ p => AGG_BIN_OP.scalar_seq (Overload.run op p)

/-- The expression `a OP b` for operands of types `t1` and `t2`: the result of the selected
definition, with its type, or nothing when the expression is ill-formed. -/
def binary_operator {S σ : Type} (op : S → S → S) (t1 t2 : Ty)
    (a : Ref σ (t1.denote S)) (b : Ref σ (t2.denote S)) (s : σ) :
    Option ((r : Ty) × r.denote S) :=
  match resolve t1 t2 with
  | some ⟨r, p⟩ => some ⟨r, (p.run op a b s).1⟩
  | none => none

/-! ## Operands of the test program -/

/-- The test's `x = {1,2,3}` (the test holds floats; the values are whole numbers). -/
def test.x : aggregate Int 3 :=
  ⟨[1, 2, 3], rfl⟩

/-- The test's `vv = aggregate<aggregate<float,3>,3>{x,x,x}`. -/
def test.vv : aggregate (aggregate Int 3) 3 :=
  ⟨[test.x, test.x, test.x], rfl⟩

/-! ## Iterators and the `std::` algorithms the operators call -/

/-- The iterator `a.begin()`, `iterator(data())`, as an offset from `data()`. The offset
says where the range lies; the iterator itself exists only where `data()` does
(`aggregate.data`), that is for `N ≥ 1`. -/
def aggregate.begin {T : Type} {N : Nat} (_a : aggregate T N) : Int :=
  0

/-- The iterator `a.end()`, `iterator(data() + N)`, as an offset from `data()`. As for
`begin()`, the iterator itself exists only where `data()` does, that is for `N ≥ 1`. -/
def aggregate.end_ {T : Type} {N : Nat} (_a : aggregate T N) : Int :=
  N

/-- Reading `*p` for an iterator `p` into `a`: defined only inside the storage. -/
def aggregate.deref {T : Type} {N : Nat} (a : aggregate T N) (p : Int) : Option T :=
  if 0 ≤ p then a.elem.get? p.toNat else none

theorem aggregate.deref_bound {T : Type} {N : Nat} (a : aggregate T N) (p : Int) (x : T)
    (h : a.deref p = some x) : 0 ≤ p ∧ p < N := by
  unfold aggregate.deref at h
  split at h
  · rename_i hp
    have := (List.get?_eq_some.mp h).1
    rw [a.size_eq] at this
    omega
  · cases h

/-- The algorithm `std::equal(first1, last1, first2)` with the element equality `eq`:
`for (; first1 != last1; ++first1, ++first2) if (!(*first1 == *first2)) return false;
return true;`. -/
def std_equal {T U : Type} {N M : Nat} (eq : T → U → Bool) (a : aggregate T N)
    (b : aggregate U M) (first1 last1 first2 : Int) : Option Bool :=
  if first1 = last1 then some true
  else
    match h : a.deref first1, b.deref first2 with
    | some x, some y =>
      if eq x y then std_equal eq a b (first1 + 1) last1 (first2 + 1) else some false
    | _, _ => none
termination_by ((N : Int) - first1).toNat
decreasing_by
  have := a.deref_bound first1 x h
  omega

/-- The algorithm `std::lexicographical_compare(first1, last1, first2, last2)` with the
element comparisons `lt12` (`*first1 < *first2`) and `lt21` (`*first2 < *first1`):
`for (; first1 != last1 && first2 != last2; ++first1, ++first2) {
if (*first1 < *first2) return true; if (*first2 < *first1) return false; }
return first1 == last1 && first2 != last2;`. -/
def std_lexicographical_compare {T U : Type} {N M : Nat} (lt12 : T → U → Bool)
    (lt21 : U → T → Bool) (a : aggregate T N) (b : aggregate U M)
    (first1 last1 first2 last2 : Int) : Option Bool :=
  if first1 ≠ last1 ∧ first2 ≠ last2 then
    match h : a.deref first1, b.deref first2 with
    | some x, some y =>
      if lt12 x y then some true
      else if lt21 y x then some false
      else std_lexicographical_compare lt12 lt21 a b (first1 + 1) last1 (first2 + 1) last2
    | _, _ => none
  else some (decide (first1 = last1 ∧ first2 ≠ last2))
termination_by ((N : Int) - first1).toNat
decreasing_by
  have := a.deref_bound first1 x h
  omega

/-- The assignment `*out++ = v` of a `std::ostream_iterator<T>(s, delim)`: it writes the
text of `v` and then the delimiter to the stream. -/
def ostream_iterator.assign {T : Type} (text : T → List Char) (delim : List Char)
    (s : List Char) (v : T) : List Char :=
  s ++ text v ++ delim

/-- The algorithm `std::copy(first, last, out)` into an `ostream_iterator` on the stream
contents `s`: `while (first != last) *out++ = *first++;`. -/
def std_copy {T : Type} {N : Nat} (text : T → List Char) (delim : List Char)
    (a : aggregate T N) (first last : Int) (s : List Char) : Option (List Char) :=
  if first = last then some s
  else
    match h : a.deref first with
    | none => none
    | some v => std_copy text delim a (first + 1) last (ostream_iterator.assign text delim s v)
termination_by ((N : Int) - first).toNat
decreasing_by
  have := a.deref_bound first v h
  omega

/-! ## Stream output and comparisons -/

/-- The stream operator `operator<<(std::basic_ostream&, const aggregate<T,N>&)` on the
stream contents `s`, where `text` is what `s << element` writes: the copy of
`[a.begin(), a.end()-1)` with delimiter `" "`, then `if (N >= 1) s << a[N-1]`. -/
def operator_lshift {T : Type} {N : Nat} (text : T → List Char) (s : List Char)
    (a : aggregate T N) : Option (List Char) :=
  match std_copy text [' '] a a.begin (a.end_ - 1) s with
  | none => none
  | some s1 =>
    if N ≥ 1 then
      match a.index (N - 1) with
      | none => none
      | some v => some (s1 ++ text v)
    else some s1

/-- The comparison `operator==(const aggregate<T,N>&, const aggregate<U,N>&)`, with the
element types' `==` as `eq`. -/
def operator_eq {T U : Type} {N : Nat} (eq : T → U → Bool) (a : aggregate T N)
    (b : aggregate U N) : Option Bool :=
  std_equal eq a b a.begin a.end_ b.begin

/-- The comparison `operator!=`: `return !(a == b);`. -/
def operator_ne {T U : Type} {N : Nat} (eq : T → U → Bool) (a : aggregate T N)
    (b : aggregate U N) : Option Bool :=
  (operator_eq eq a b).map (fun r => !r)

/-- The comparison `operator<(const aggregate<T,N>&, const aggregate<U,N>&)`, with the
element comparisons `T < U` as `ltTU` and `U < T` as `ltUT`. -/
def operator_lt {T U : Type} {N : Nat} (ltTU : T → U → Bool) (ltUT : U → T → Bool)
    (a : aggregate T N) (b : aggregate U N) : Option Bool :=
  std_lexicographical_compare ltTU ltUT a b a.begin a.end_ b.begin b.end_

/-- The comparison `operator>`: `return b < a;`. -/
def operator_gt {T U : Type} {N : Nat} (ltTU : T → U → Bool) (ltUT : U → T → Bool)
    (a : aggregate T N) (b : aggregate U N) : Option Bool :=
  operator_lt ltUT ltTU b a

/-- The comparison `operator<=`: `return !(a > b);`. -/
def operator_le {T U : Type} {N : Nat} (ltTU : T → U → Bool) (ltUT : U → T → Bool)
    (a : aggregate T N) (b : aggregate U N) : Option Bool :=
  (operator_gt ltTU ltUT a b).map (fun r => !r)

/-- The comparison `operator>=`: `return !(a < b);`. -/
def operator_ge {T U : Type} {N : Nat} (ltTU : T → U → Bool) (ltUT : U → T → Bool)
    (a : aggregate T N) (b : aggregate U N) : Option Bool :=
  (operator_lt ltTU ltUT a b).map (fun r => !r)

/-- The text the stream writes for a one-digit value of the test. -/
def test.text (v : Int) : List Char :=
  [Char.ofNat (48 + v.toNat)]

/-! ## Unary function objects and operators -/

/-- The function object `fn::NAME` of `LEFT_UNARY_OP(NAME, OP)` for a non-mutating
operator (`+`, `-`, `~`, `!`) with value `op`: it reads the operand and yields
`OP arg`. -/
def fn.LEFT_UNARY_OP {σ T C : Type} (op : T → C) (arg : Ref σ T) : σ → C × σ :=
  fun s => (op (arg.get s), s)

/-- The function objects `fn::post_increment` and `fn::post_decrement` of
`RIGHT_UNARY_OP` at an element type whose `arg++` (`arg--`) stores `step arg` into
`arg` and yields the value `arg` had before. -/
def fn.RIGHT_UNARY_OP {σ T : Type} (step : T → T) (arg : Ref σ T) : σ → T × σ :=
  fun s => (arg.get s, arg.set s (step (arg.get s)))

/-- The operators of the first `AGG_UN_OP(NAME, OP)` (`+a`, `-a`, `~a`, `!a`, `*a`,
`&a`): `operator OP(aggregate<T,N>& a)`, the value-producing map of `fn::NAME()`. -/
def AGG_UN_OP.left {σ T C : Type} {N : Nat} (NAME : Ref σ T → σ → C × σ)
    (a : Ref σ (aggregate T N)) : σ → aggregate C N × σ :=
  tuple_map N NAME (fun I h => std_get I h a)

/-- The operators of the second `AGG_UN_OP(NAME, OP)` (`a++`, `a--`):
`operator OP(aggregate<T,N>& a, int)`, the value-producing map of `fn::NAME()`. -/
def AGG_UN_OP.right {σ T C : Type} {N : Nat} (NAME : Ref σ T → σ → C × σ)
    (a : Ref σ (aggregate T N)) : σ → aggregate C N × σ :=
  tuple_map N NAME (fun I h => std_get I h a)

/-! ## Reference semantics of the engine -/

/-- Visiting the positions `0, 1, ..., k-1` in ascending order with one application of
`f` per position: the results in position order and the state after the last one. -/
def visit_ascending {σ X R : Type} {N : Nat} (f : X → σ → R × σ)
    (ts : (I : Nat) → I < N → X) : (k : Nat) → k ≤ N → σ → List R × σ
  | 0, _, s => ([], s)
  | k + 1, h, s =>
    let prev := visit_ascending f ts k (Nat.le_of_succ_le h) s
    let r := f (ts k h) prev.2
    (prev.1 ++ [r.1], r.2)

/-- The function `f` instrumented to record every argument it is invoked on, in
invocation order, in a log kept beside the state. -/
def traced {σ X R : Type} (f : X → σ → R × σ) (x : X) (s : σ × List X) :
    R × (σ × List X) :=
  ((f x s.1).1, ((f x s.1).2, s.2 ++ [x]))

/-! ## Capability detection (`namespace sfinae`) -/

/-- The detector `sfinae::invokeable<F, Args...>::value`. `call` is the type of the call
expression `std::declval<F>()(std::declval<Args>()...)`, or `none` when that expression
is ill-formed: `test(int)` is viable exactly when it is well-formed and yields
`std::true_type`, otherwise `test(...)` yields `std::false_type`. -/
def sfinae.invokeable {CT : Type} (call : Option CT) : Bool :=
  match call with
  | some _ => true
  | none => false

/-- The template `sfinae::check_return<Callable, ReturnType, F, Args...>`: the
specialisation for `Callable = false` is `std::false_type`; the primary template is
`std::is_convertible<decltype(call), ReturnType>`, which names the type of the call
expression in a base clause and so cannot be instantiated (`none`) when the call is
ill-formed. -/
def sfinae.check_return {CT : Type} (is_convertible : CT → CT → Bool) :
    Bool → CT → Option CT → Option Bool
  | false, _, _ => some false
  | true, ReturnType, some r => some (is_convertible r ReturnType)
  | true, _, none => none

/-- The template `sfinae::check_function<ReturnType, F, Args...>`, with `none` for
`ReturnType = sfinae::__ignore`: the specialisation for `__ignore` is
`invokeable<F, Args...>`, the primary template is
`check_return<invokeable<F, Args...>::value, ReturnType, F, Args...>`. -/
def sfinae.check_function {CT : Type} (is_convertible : CT → CT → Bool)
    (ReturnType : Option CT) (call : Option CT) : Option Bool :=
  match ReturnType with
  | none => some (sfinae.invokeable call)
  | some R => sfinae.check_return is_convertible (sfinae.invokeable call) R call

/-- The traits `has_NAME<T1, T2, Result>` of `BINARY_TRAIT`, `has_NAME<T1, Result>` of
`LEFT_UNARY_TRAIT` and `RIGHT_UNARY_TRAIT`, and `has_subscript`:
`sfinae::check_function<Result, fn::NAME, T1, T2>`, where `Result` defaults to
`sfinae::__ignore` and `call` is the type of `fn::NAME()` applied to the arguments
(`has_function` is the same with `Result` fixed to `sfinae::__ignore`). -/
def has_trait {CT : Type} (is_convertible : CT → CT → Bool) (Result : Option CT)
    (call : Option CT) : Option Bool :=
  sfinae.check_function is_convertible Result call

/-! ## Guards of the comparison operators -/

/-- The comparison function objects of `BINARY_OP`, each with its trait `has_NAME` of
`BINARY_TRAIT`. -/
inductive fn.Comparison where
  | equal_to
  | not_equal_to
  | greater
  | less
  | greater_equal
  | less_equal
  deriving DecidableEq

/-- What a pair of element types `T`, `U` supports: the type of `t OP u` (`TU`) and of
`u OP t` (`UT`) for every comparison, `none` where the expression is ill-formed,
together with the type `bool` and `std::is_convertible`. -/
structure ElementTypes (CT : Type) where
  bool : CT
  is_convertible : CT → CT → Bool
  TU : fn.Comparison → Option CT
  UT : fn.Comparison → Option CT

/-- The pair of element types with `T` and `U` exchanged. -/
def ElementTypes.swap {CT : Type} (E : ElementTypes CT) : ElementTypes CT :=
  { E with TU := E.UT, UT := E.TU }

/-- The value of the trait `has_NAME<T,U,bool>`. -/
def ElementTypes.has {CT : Type} (E : ElementTypes CT) (NAME : fn.Comparison) : Bool :=
  has_trait E.is_convertible (some E.bool) (E.TU NAME) == some true

/-- The guard of `operator==`: `enable_if<has_equal_to<T,U,bool>, bool>`. -/
def operator_eq.enabled {CT : Type} (E : ElementTypes CT) : Bool :=
  E.has .equal_to

/-- The guard of `operator!=`: `enable_if<has_not_equal_to<T,U,bool>, bool>`. -/
def operator_ne.enabled {CT : Type} (E : ElementTypes CT) : Bool :=
  E.has .not_equal_to

/-- The guard of `operator<`: `enable_if<has_less<T,U,bool>, bool>`. -/
def operator_lt.enabled {CT : Type} (E : ElementTypes CT) : Bool :=
  E.has .less

/-- The guard of `operator>`: `enable_if<has_greater<T,U,bool>, bool>`. -/
def operator_gt.enabled {CT : Type} (E : ElementTypes CT) : Bool :=
  E.has .greater

/-- The guard of `operator<=`: `enable_if<has_less_equal<T,U,bool>, bool>`. -/
def operator_le.enabled {CT : Type} (E : ElementTypes CT) : Bool :=
  E.has .less_equal

/-- The guard of `operator>=`: `enable_if<has_less_equal<T,U,bool>, bool>`, as the source
writes it. -/
def operator_ge.enabled {CT : Type} (E : ElementTypes CT) : Bool :=
  E.has .less_equal

/-- Whether the body of `operator==` compiles: `std::equal` applies `t == u`. -/
def operator_eq.body {CT : Type} (E : ElementTypes CT) : Bool :=
  (E.TU .equal_to).isSome

/-- Whether the body of `operator<` compiles: `std::lexicographical_compare` applies
`t < u` and `u < t`. -/
def operator_lt.body {CT : Type} (E : ElementTypes CT) : Bool :=
  (E.TU .less).isSome && (E.UT .less).isSome

/-- Whether the body of `operator!=`, `!(a == b)`, compiles: the sequence `==` must be
selectable and compile. -/
def operator_ne.body {CT : Type} (E : ElementTypes CT) : Bool :=
  operator_eq.enabled E && operator_eq.body E

/-- Whether the body of `operator>`, `b < a`, compiles: the sequence `<` on the swapped
operands must be selectable and compile. -/
def operator_gt.body {CT : Type} (E : ElementTypes CT) : Bool :=
  operator_lt.enabled E.swap && operator_lt.body E.swap

/-- Whether the body of `operator<=`, `!(a > b)`, compiles: the sequence `>` must be
selectable and compile. -/
def operator_le.body {CT : Type} (E : ElementTypes CT) : Bool :=
  operator_gt.enabled E && operator_gt.body E

/-- Whether the body of `operator>=`, `!(a < b)`, compiles: the sequence `<` must be
selectable and compile. -/
def operator_ge.body {CT : Type} (E : ElementTypes CT) : Bool :=
  operator_lt.enabled E && operator_lt.body E

/-- An element type that defines `<=` (yielding `bool`) and no other comparison; the only
type involved is `bool`. -/
def test.only_less_equal : ElementTypes Unit :=
  { bool := (), is_convertible := fun _ _ => true,
    TU := fun n => if n = .less_equal then some () else none,
    UT := fun n => if n = .less_equal then some () else none }

/-! ## Lemmas -/

theorem aggregate.ext_ref {T : Type} {N : Nat} (a b : aggregate T N)
    (h : ∀ i (hi : i < N), a.ref i hi = b.ref i hi) : a = b := by
  obtain ⟨xs, hx⟩ := a
  obtain ⟨ys, hy⟩ := b
  have : xs = ys := by
    apply List.ext_getElem (hx.trans hy.symm)
    intro n h1 h2
    have := h n (hx ▸ h1)
    simpa [aggregate.ref] using this
  subst this
  rfl

theorem tuple_map_make_impl.apply_of_pure {σ X R : Type} {N : Nat} (Is : List Nat)
    (h : ∀ I ∈ Is, I < N) (f : X → σ → R × σ) (ts : (I : Nat) → I < N → X) (s : σ)
    (hf : ∀ x, (f x s).2 = s) :
    tuple_map_make_impl.apply Is h f ts s
      = (Is.pmap (fun I hI => (f (ts I hI) s).1) h, s) := by
  induction Is with
  | nil => rfl
  | cons I Is ih =>
    simp only [tuple_map_make_impl.apply, tuple_map_invoke, hf, List.pmap]
    rw [ih]

theorem tuple_map_of_pure {σ X R : Type} (N : Nat) (f : X → σ → R × σ)
    (ts : (I : Nat) → I < N → X) (s : σ) (hf : ∀ x, (f x s).2 = s) :
    (tuple_map N f ts s).2 = s ∧
      ∀ i (hi : i < N), (tuple_map N f ts s).1.ref i hi = (f (ts i hi) s).1 := by
  constructor
  · simp [tuple_map, tuple_map_make_impl.apply_of_pure _ _ f ts s hf]
  · intro i hi
    simp only [tuple_map, aggregate.ref, List.get_eq_getElem]
    simp only [tuple_map_make_impl.apply_of_pure _ _ f ts s hf, List.getElem_pmap]
    congr 2
    simp [make_index_sequence_eq]

theorem AGG_BIN_OP.seq_seq_ref {σ T U C : Type} {N : Nat} (op : T → U → C)
    (a : Ref σ (aggregate T N)) (b : Ref σ (aggregate U N)) (s : σ) (i : Nat) (h : i < N) :
    (AGG_BIN_OP.seq_seq (fn.BINARY_OP op) a b s).1.ref i h
      = op ((a.get s).ref i h) ((b.get s).ref i h) := by
  have key := (tuple_map_of_pure N (fun x : Ref σ T × Ref σ U => fn.BINARY_OP op x.1 x.2)
    (fun I h => (std_get I h a, std_get I h b)) s (fun _ => rfl)).2 i h
  simpa [AGG_BIN_OP.seq_seq, fn.BINARY_OP, std_get] using key

theorem AGG_BIN_OP.seq_scalar_ref {σ T U C : Type} {N : Nat} (op : T → U → C)
    (a : Ref σ (aggregate T N)) (b : Ref σ U) (s : σ) (i : Nat) (h : i < N) :
    (AGG_BIN_OP.seq_scalar (fn.BINARY_OP op) a b s).1.ref i h
      = op ((a.get s).ref i h) (b.get s) := by
  have key := (tuple_map_of_pure N (fun t : Ref σ T => fn.BINARY_OP op t b)
    (fun I h => std_get I h a) s (fun _ => rfl)).2 i h
  simpa [AGG_BIN_OP.seq_scalar, fn.BINARY_OP, std_get] using key

theorem AGG_BIN_OP.scalar_seq_ref {σ T U C : Type} {N : Nat} (op : T → U → C)
    (a : Ref σ T) (b : Ref σ (aggregate U N)) (s : σ) (i : Nat) (h : i < N) :
    (AGG_BIN_OP.scalar_seq (fn.BINARY_OP op) a b s).1.ref i h
      = op (a.get s) ((b.get s).ref i h) := by
  have key := (tuple_map_of_pure N (fun u : Ref σ U => fn.BINARY_OP op a u)
    (fun I h => std_get I h b) s (fun _ => rfl)).2 i h
  simpa [AGG_BIN_OP.scalar_seq, fn.BINARY_OP, std_get] using key

theorem copies_ref {T : Type} (N : Nat) (v : T) (i : Nat) (h : i < N) :
    (copies N v).ref i h = v := by
  simp [copies, aggregate.ref]

theorem resolve_scalar_scalar : resolve .scalar .scalar = some ⟨.scalar, .builtin⟩ := by
  rw [resolve]

theorem resolve_seq_scalar (N : Nat) :
    resolve (.seq .scalar N) .scalar = some ⟨.seq .scalar N, .seq_scalar N .builtin⟩ := by
  rw [resolve, resolve_scalar_scalar]

theorem resolve_scalar_seq (N : Nat) :
    resolve .scalar (.seq .scalar N) = some ⟨.seq .scalar N, .scalar_seq N .builtin⟩ := by
  rw [resolve, resolve_scalar_scalar]

theorem resolve_seq_seq (N : Nat) :
    resolve (.seq .scalar N) (.seq .scalar N) = some ⟨.seq .scalar N, .seq_seq N .builtin⟩ := by
  rw [resolve]
  simp [resolve_scalar_scalar]

theorem resolve_nested_seq (N : Nat) :
    resolve (.seq (.seq .scalar N) N) (.seq .scalar N)
      = some ⟨.seq (.seq .scalar N) N, .seq_seq N (.seq_scalar N .builtin)⟩ := by
  rw [resolve]
  simp [resolve_seq_scalar]

theorem resolve_seq_nested (N : Nat) :
    resolve (.seq .scalar N) (.seq (.seq .scalar N) N)
      = some ⟨.seq (.seq .scalar N) N, .seq_seq N (.scalar_seq N .builtin)⟩ := by
  rw [resolve]
  simp [resolve_scalar_seq]

theorem resolve_seq2_scalar (N M : Nat) :
    resolve (.seq (.seq .scalar M) N) .scalar
      = some ⟨.seq (.seq .scalar M) N, .seq_scalar N (.seq_scalar M .builtin)⟩ := by
  rw [resolve, resolve_seq_scalar]

theorem resolve_scalar_seq2 (N M : Nat) :
    resolve .scalar (.seq (.seq .scalar M) N)
      = some ⟨.seq (.seq .scalar M) N, .scalar_seq N (.scalar_seq M .builtin)⟩ := by
  rw [resolve, resolve_scalar_seq]

theorem resolve_nested_ambiguous (N M : Nat) (h : N ≠ M) :
    resolve (.seq (.seq .scalar M) N) (.seq .scalar M) = none := by
  rw [resolve]
  simp [h, resolve_seq_seq, resolve_seq2_scalar]

theorem resolve_ambiguous_nested (N M : Nat) (h : N ≠ M) :
    resolve (.seq .scalar M) (.seq (.seq .scalar M) N) = none := by
  rw [resolve]
  simp [Ne.symm h, resolve_seq_seq, resolve_scalar_seq2]

theorem AGG_BIN_OP.seq_seq_state {σ T U C : Type} {N : Nat}
    (NAME : Ref σ T → Ref σ U → σ → C × σ) (a : Ref σ (aggregate T N))
    (b : Ref σ (aggregate U N)) (s : σ) (hf : ∀ t u, (NAME t u s).2 = s) :
    (AGG_BIN_OP.seq_seq NAME a b s).2 = s ∧
      ∀ i (h : i < N), (AGG_BIN_OP.seq_seq NAME a b s).1.ref i h
        = (NAME (std_get i h a) (std_get i h b) s).1 :=
  tuple_map_of_pure N (fun x : Ref σ T × Ref σ U => NAME x.1 x.2)
    (fun I h => (std_get I h a, std_get I h b)) s (fun x => hf x.1 x.2)

theorem AGG_BIN_OP.seq_scalar_state {σ T U C : Type} {N : Nat}
    (NAME : Ref σ T → Ref σ U → σ → C × σ) (a : Ref σ (aggregate T N))
    (b : Ref σ U) (s : σ) (hf : ∀ t u, (NAME t u s).2 = s) :
    (AGG_BIN_OP.seq_scalar NAME a b s).2 = s ∧
      ∀ i (h : i < N), (AGG_BIN_OP.seq_scalar NAME a b s).1.ref i h
        = (NAME (std_get i h a) b s).1 :=
  tuple_map_of_pure N (fun t : Ref σ T => NAME t b)
    (fun I h => std_get I h a) s (fun t => hf t b)

theorem AGG_BIN_OP.scalar_seq_state {σ T U C : Type} {N : Nat}
    (NAME : Ref σ T → Ref σ U → σ → C × σ) (a : Ref σ T)
    (b : Ref σ (aggregate U N)) (s : σ) (hf : ∀ t u, (NAME t u s).2 = s) :
    (AGG_BIN_OP.scalar_seq NAME a b s).2 = s ∧
      ∀ i (h : i < N), (AGG_BIN_OP.scalar_seq NAME a b s).1.ref i h
        = (NAME a (std_get i h b) s).1 :=
  tuple_map_of_pure N (fun u : Ref σ U => NAME a u)
    (fun I h => std_get I h b) s (fun u => hf a u)

theorem nested_seq_seq_ref {σ S : Type} {N M : Nat} (op : S → S → S)
    (vv : Ref σ (aggregate (aggregate S M) N)) (x : Ref σ (aggregate S N)) (s : σ)
    (i j : Nat) (hi : i < N) (hj : j < M) :
    ((AGG_BIN_OP.seq_seq (AGG_BIN_OP.seq_scalar (fn.BINARY_OP op)) vv x s).1.ref i hi).ref
        j hj
      = op (((vv.get s).ref i hi).ref j hj) ((x.get s).ref i hi) := by
  rw [(AGG_BIN_OP.seq_seq_state _ vv x s (fun t u =>
    (AGG_BIN_OP.seq_scalar_state _ t u s (fun _ _ => rfl)).1)).2 i hi]
  rw [AGG_BIN_OP.seq_scalar_ref]
  rfl

theorem seq_seq_nested_ref {σ S : Type} {N M : Nat} (op : S → S → S)
    (x : Ref σ (aggregate S N)) (vv : Ref σ (aggregate (aggregate S M) N)) (s : σ)
    (i j : Nat) (hi : i < N) (hj : j < M) :
    ((AGG_BIN_OP.seq_seq (AGG_BIN_OP.scalar_seq (fn.BINARY_OP op)) x vv s).1.ref i hi).ref
        j hj
      = op ((x.get s).ref i hi) (((vv.get s).ref i hi).ref j hj) := by
  rw [(AGG_BIN_OP.seq_seq_state _ x vv s (fun t u =>
    (AGG_BIN_OP.scalar_seq_state _ t u s (fun _ _ => rfl)).1)).2 i hi]
  rw [AGG_BIN_OP.scalar_seq_ref]
  rfl

theorem aggregate.store_ref {T : Type} {N : Nat} (a : aggregate T N) (I : Nat) (v : T)
    (i : Nat) (hi : i < N) :
    (a.store I v).ref i hi = if i = I then v else a.ref i hi := by
  simp only [aggregate.store, aggregate.ref, List.get_eq_getElem, List.getElem_set]
  by_cases h : I = i
  · simp [h]
  · simp [h, Ne.symm h]

theorem tuple_map_make_impl_void.apply_frame {T B X R : Type} {N : Nat}
    (f : X → aggregate T N × B → R × (aggregate T N × B)) (ts : (I : Nat) → I < N → X)
    (upd : (I : Nat) → I < N → T → B → T)
    (hstep : ∀ I hI a rest,
      (f (ts I hI) (a, rest)).2 = (a.store I (upd I hI (a.ref I hI) rest), rest))
    (Is : List Nat) (h : ∀ I ∈ Is, I < N) (hnd : Is.Nodup) (a : aggregate T N) (rest : B) :
    (tuple_map_make_impl_void.apply Is h f ts (a, rest)).2 = rest ∧
      ∀ i (hi : i < N), (tuple_map_make_impl_void.apply Is h f ts (a, rest)).1.ref i hi
        = if i ∈ Is then upd i hi (a.ref i hi) rest else a.ref i hi := by
  induction Is generalizing a with
  | nil => exact ⟨rfl, fun i hi => by simp [tuple_map_make_impl_void.apply]⟩
  | cons I Is ih =>
    have hI : I < N := h I (List.mem_cons_self I Is)
    have hnd2 : Is.Nodup := (List.nodup_cons.mp hnd).2
    have hnot : I ∉ Is := (List.nodup_cons.mp hnd).1
    simp only [tuple_map_make_impl_void.apply, tuple_map_invoke, hstep]
    obtain ⟨h1, h2⟩ := ih (fun J hJ => h J (List.mem_cons_of_mem I hJ)) hnd2
      (a.store I (upd I hI (a.ref I hI) rest))
    refine ⟨h1, ?_⟩
    intro i hi
    rw [h2 i hi, aggregate.store_ref]
    by_cases hiI : i = I
    · subst hiI
      simp [hnot]
    · simp [hiI]

theorem tuple_map_void_frame {T B X R : Type} {N : Nat}
    (f : X → aggregate T N × B → R × (aggregate T N × B)) (ts : (I : Nat) → I < N → X)
    (upd : (I : Nat) → I < N → T → B → T)
    (hstep : ∀ I hI a rest,
      (f (ts I hI) (a, rest)).2 = (a.store I (upd I hI (a.ref I hI) rest), rest))
    (a : aggregate T N) (rest : B) :
    (tuple_map_void N f ts (a, rest)).2 = rest ∧
      ∀ i (hi : i < N), (tuple_map_void N f ts (a, rest)).1.ref i hi
        = upd i hi (a.ref i hi) rest := by
  have key := tuple_map_make_impl_void.apply_frame f ts upd hstep (make_index_sequence N)
    (make_index_sequence_bound N)
    (by rw [make_index_sequence_eq]; exact List.nodup_range N) a rest
  refine ⟨key.1, fun i hi => ?_⟩
  have := key.2 i hi
  rw [if_pos (by rw [make_index_sequence_eq]; exact List.mem_range.mpr hi)] at this
  exact this

theorem AGG_BIN_OP_ASSIGN.seq_scalar_frame {T U : Type} {N : Nat} (g : T → U → T)
    (a : aggregate T N) (sc : U) :
    (AGG_BIN_OP_ASSIGN.seq_scalar (fn.BINARY_OP_ASSIGN g) Ref.fst Ref.snd (a, sc)).2.2 = sc ∧
      ∀ i (hi : i < N),
        (AGG_BIN_OP_ASSIGN.seq_scalar (fn.BINARY_OP_ASSIGN g) Ref.fst Ref.snd (a, sc)).2.1.ref
            i hi
          = g (a.ref i hi) sc :=
  tuple_map_void_frame
    (fun t : Ref (aggregate T N × U) T => fn.BINARY_OP_ASSIGN g t Ref.snd)
    (fun I h => std_get I h Ref.fst)
    (fun _ _ t sc => g t sc) (fun _ _ _ _ => rfl) a sc

theorem aggregate.deref_natCast {T : Type} {N : Nat} (a : aggregate T N) (k : Nat)
    (h : k < N) : a.deref (k : Int) = some (a.ref k h) := by
  simp only [aggregate.deref, Int.natCast_nonneg, if_true, Int.toNat_ofNat,
    aggregate.ref, List.get_eq_getElem]
  rw [List.get?_eq_getElem?, List.getElem?_eq_getElem]

theorem std_copy_done {T : Type} {N : Nat} (text : T → List Char) (delim : List Char)
    (a : aggregate T N) (last : Int) (s : List Char) :
    std_copy text delim a last last s = some s := by
  rw [std_copy]
  simp

theorem std_copy_step {T : Type} {N : Nat} (text : T → List Char) (delim : List Char)
    (a : aggregate T N) (k : Nat) (h : k < N) (last : Int) (hne : (k : Int) ≠ last)
    (s : List Char) :
    std_copy text delim a k last s
      = std_copy text delim a (k + 1 : Nat) last
          (ostream_iterator.assign text delim s (a.ref k h)) := by
  rw [std_copy]
  simp only [hne, if_false]
  split
  · rename_i h1
    rw [aggregate.deref_natCast a k h] at h1
    cases h1
  · rename_i x h1
    rw [aggregate.deref_natCast a k h] at h1
    cases h1
    simp only [Nat.cast_add, Nat.cast_one]

theorem std_copy_spec {T : Type} {N : Nat} (text : T → List Char) (delim : List Char)
    (a : aggregate T N) (n k : Nat) (hk : k + n ≤ N) (s : List Char) :
    std_copy text delim a k ((k + n : Nat) : Int) s
      = some (s ++ (((a.elem.drop k).take n).map (fun v => text v ++ delim)).flatten) := by
  induction n generalizing k s with
  | zero => simp [std_copy_done]
  | succ n ih =>
    have hkN : k < N := by omega
    have hlen : k < a.elem.length := by rw [a.size_eq]; exact hkN
    rw [std_copy_step text delim a k hkN _ (by omega)]
    have := ih (k + 1) (by omega) (ostream_iterator.assign text delim s (a.ref k hkN))
    rw [show k + 1 + n = k + (n + 1) by omega] at this
    rw [this, List.drop_eq_getElem_cons hlen, List.take_succ_cons]
    simp only [List.map_cons, List.flatten_cons, ostream_iterator.assign, aggregate.ref,
      List.get_eq_getElem, List.append_assoc]

theorem intercalate_map_text {T : Type} (text : T → List Char) (sep : List Char) (x : T)
    (xs : List T) :
    List.intercalate sep ((x :: xs).map text)
      = (((x :: xs).dropLast).map (fun v => text v ++ sep)).flatten
        ++ text ((x :: xs).getLast (List.cons_ne_nil x xs)) := by
  induction xs generalizing x with
  | nil => simp [List.intercalate]
  | cons y ys ih =>
    have := ih y
    simp only [List.intercalate, List.map_cons, List.intersperse, List.flatten_cons,
      List.dropLast_cons₂, List.getLast_cons_cons] at this ⊢
    rw [this]
    simp

theorem operator_lshift_spec {T : Type} {N : Nat} (text : T → List Char) (s : List Char)
    (a : aggregate T N) (hN : 1 ≤ N) :
    operator_lshift text s a = some (s ++ List.intercalate [' '] (a.elem.map text)) := by
  obtain ⟨xs, hx⟩ := a
  cases xs with
  | nil => simp at hx; omega
  | cons x xs =>
    have hcopy := std_copy_spec text [' '] (⟨x :: xs, hx⟩ : aggregate T N) (N - 1) 0
      (by omega) s
    have hend : ((0 + (N - 1) : Nat) : Int) = (N : Int) - 1 := by omega
    rw [hend, Nat.cast_zero] at hcopy
    have hlt : N - 1 < (x :: xs).length := by rw [hx]; omega
    have hidx : (⟨x :: xs, hx⟩ : aggregate T N).index (N - 1)
        = some ((x :: xs).getLast (List.cons_ne_nil x xs)) := by
      simp only [aggregate.index]
      rw [List.get?_eq_getElem?, List.getElem?_eq_getElem hlt, List.getLast_eq_getElem]
      simp only [hx]
    simp only [operator_lshift, aggregate.begin, aggregate.end_, hcopy, hidx, hN, ge_iff_le,
      if_true]
    rw [intercalate_map_text, List.dropLast_eq_take]
    simp only [hx, List.drop_zero, List.append_assoc]

theorem operator_lshift_zero {T : Type} (text : T → List Char) (s : List Char)
    (a : aggregate T 0) : operator_lshift text s a = none := by
  have hd : a.deref 0 = none := by
    have : a.elem = [] := List.length_eq_zero.mp a.size_eq
    simp [aggregate.deref, this]
  have hc : std_copy text [' '] a 0 (-1) s = none := by
    rw [std_copy]
    simp only [show ¬ ((0 : Int) = -1) by omega, if_false]
    split
    · rfl
    · rename_i v h1
      rw [hd] at h1
      cases h1
  simp [operator_lshift, aggregate.begin, aggregate.end_, hc]

theorem tuple_map_make_impl_void.apply_eq {σ X R : Type} {N : Nat} (Is : List Nat)
    (h : ∀ I ∈ Is, I < N) (f : X → σ → R × σ) (ts : (I : Nat) → I < N → X) (s : σ) :
    tuple_map_make_impl_void.apply Is h f ts s = (tuple_map_make_impl.apply Is h f ts s).2 := by
  induction Is generalizing s with
  | nil => rfl
  | cons I Is ih =>
    simp only [tuple_map_make_impl_void.apply, tuple_map_make_impl.apply]
    exact ih _ _

theorem visit_ascending_congr {σ X R : Type} {N : Nat} (f : X → σ → R × σ)
    (ts : (I : Nat) → I < N → X) (k l : Nat) (hk : k ≤ N) (hl : l ≤ N) (hkl : k = l)
    (s : σ) : visit_ascending f ts k hk s = visit_ascending f ts l hl s := by
  subst hkl
  rfl

theorem tuple_map_make_impl.apply_range {σ X R : Type} {N : Nat} (f : X → σ → R × σ)
    (ts : (I : Nat) → I < N → X) (s : σ) (n m : Nat) (hmn : m + n ≤ N) (Is : List Nat)
    (hIs : Is = List.range' m n) (h : ∀ I ∈ Is, I < N) :
    (visit_ascending f ts (m + n) hmn s).1
        = (visit_ascending f ts m (by omega) s).1
          ++ (tuple_map_make_impl.apply Is h f ts (visit_ascending f ts m (by omega) s).2).1 ∧
      (visit_ascending f ts (m + n) hmn s).2
        = (tuple_map_make_impl.apply Is h f ts (visit_ascending f ts m (by omega) s).2).2 := by
  induction n generalizing m Is with
  | zero =>
    subst hIs
    simp [tuple_map_make_impl.apply]
  | succ n ih =>
    subst hIs
    have hstep := ih (m + 1) (by omega) (List.range' (m + 1) n) rfl
      (fun J hJ => h J (by
        rw [List.range'_succ]
        exact List.mem_cons_of_mem m hJ))
    have hc := visit_ascending_congr f ts (m + (n + 1)) (m + 1 + n) hmn (by omega) (by omega) s
    rw [hc, hstep.1, hstep.2]
    simp only [List.range'_succ, tuple_map_make_impl.apply, tuple_map_invoke, visit_ascending,
      List.append_assoc, List.singleton_append, and_self]

theorem tuple_map_eq_visit {σ X R : Type} (N : Nat) (f : X → σ → R × σ)
    (ts : (I : Nat) → I < N → X) (s : σ) :
    (tuple_map N f ts s).1.elem = (visit_ascending f ts N (le_refl N) s).1 ∧
      (tuple_map N f ts s).2 = (visit_ascending f ts N (le_refl N) s).2 := by
  have key := tuple_map_make_impl.apply_range f ts s N 0 (by omega) (make_index_sequence N)
    (by rw [make_index_sequence_eq, List.range_eq_range']) (make_index_sequence_bound N)
  have hc := visit_ascending_congr f ts (0 + N) N (by omega) (le_refl N) (by omega) s
  rw [hc] at key
  simp only [visit_ascending, List.nil_append] at key
  exact ⟨key.1.symm, key.2.symm⟩

theorem tuple_map_void_eq_visit {σ X R : Type} (N : Nat) (f : X → σ → R × σ)
    (ts : (I : Nat) → I < N → X) (s : σ) :
    tuple_map_void N f ts s = (visit_ascending f ts N (le_refl N) s).2 := by
  rw [← (tuple_map_eq_visit N f ts s).2]
  exact tuple_map_make_impl_void.apply_eq _ _ f ts s

theorem visit_ascending_pointwise {σ T X R : Type} {N : Nat} (A : Ref σ (aggregate T N))
    (hA : ∀ s v, A.get (A.set s v) = v) (f : X → σ → R × σ) (ts : (I : Nat) → I < N → X)
    (res : (I : Nat) → I < N → T → R) (upd : (I : Nat) → I < N → T → T)
    (hstep : ∀ I hI s, f (ts I hI) s
      = (res I hI ((A.get s).ref I hI),
         A.set s ((A.get s).store I (upd I hI ((A.get s).ref I hI)))))
    (s : σ) (k : Nat) (hk : k ≤ N) :
    (∀ i (hi : i < N), (A.get (visit_ascending f ts k hk s).2).ref i hi
        = if i < k then upd i hi ((A.get s).ref i hi) else (A.get s).ref i hi) ∧
    (visit_ascending f ts k hk s).1.length = k ∧
    ∀ i (hi : i < k), (visit_ascending f ts k hk s).1[i]?
        = some (res i (Nat.lt_of_lt_of_le hi hk) ((A.get s).ref i (Nat.lt_of_lt_of_le hi hk))) := by
  induction k with
  | zero => exact ⟨fun i hi => by simp [visit_ascending], rfl, fun i hi => by omega⟩
  | succ k ih =>
    obtain ⟨h1, h2, h3⟩ := ih (Nat.le_of_succ_le hk)
    have hkk : (A.get (visit_ascending f ts k (Nat.le_of_succ_le hk) s).2).ref k hk
        = (A.get s).ref k hk := by
      rw [h1 k hk, if_neg (Nat.lt_irrefl k)]
    refine ⟨?_, ?_, ?_⟩
    · intro i hi
      simp only [visit_ascending, hstep, hA, aggregate.store_ref, hkk, h1 i hi]
      by_cases hik : i = k
      · subst hik
        simp
      · by_cases hlt : i < k
        · simp [hik, hlt, Nat.lt_succ_of_lt hlt]
        · have : ¬ i < k + 1 := by omega
          simp [hik, hlt, this]
    · simp [visit_ascending, h2]
    · intro i hi
      simp only [visit_ascending, hstep, hkk]
      by_cases hik : i < k
      · rw [List.getElem?_append_left (by omega)]
        exact h3 i hik
      · have : i = k := by omega
        subst this
        rw [List.getElem?_append_right (by omega)]
        simp [h2]

theorem tuple_map_pointwise {σ T X R : Type} {N : Nat} (A : Ref σ (aggregate T N))
    (hA : ∀ s v, A.get (A.set s v) = v) (f : X → σ → R × σ) (ts : (I : Nat) → I < N → X)
    (res : (I : Nat) → I < N → T → R) (upd : (I : Nat) → I < N → T → T)
    (hstep : ∀ I hI s, f (ts I hI) s
      = (res I hI ((A.get s).ref I hI),
         A.set s ((A.get s).store I (upd I hI ((A.get s).ref I hI)))))
    (s : σ) :
    (∀ i (hi : i < N), (tuple_map N f ts s).1.ref i hi = res i hi ((A.get s).ref i hi)) ∧
    (∀ i (hi : i < N), (A.get (tuple_map N f ts s).2).ref i hi
        = upd i hi ((A.get s).ref i hi)) ∧
    (∀ i (hi : i < N), (A.get (tuple_map_void N f ts s)).ref i hi
        = upd i hi ((A.get s).ref i hi)) := by
  obtain ⟨h1, -, h3⟩ := visit_ascending_pointwise A hA f ts res upd hstep s N (le_refl N)
  obtain ⟨he, hs⟩ := tuple_map_eq_visit N f ts s
  refine ⟨?_, ?_, ?_⟩
  · intro i hi
    have := h3 i hi
    rw [← he] at this
    simp only [aggregate.ref, List.get_eq_getElem]
    rw [List.getElem?_eq_getElem (by rw [(tuple_map N f ts s).1.size_eq]; exact hi)] at this
    exact Option.some.inj this
  · intro i hi
    rw [hs, h1 i hi, if_pos hi]
  · intro i hi
    rw [tuple_map_void_eq_visit, h1 i hi, if_pos hi]

theorem AGG_UN_OP.left_pure {σ T C : Type} {N : Nat} (op : T → C)
    (a : Ref σ (aggregate T N)) (s : σ) :
    (AGG_UN_OP.left (fn.LEFT_UNARY_OP op) a s).2 = s ∧
      ∀ i (h : i < N), (AGG_UN_OP.left (fn.LEFT_UNARY_OP op) a s).1.ref i h
        = op ((a.get s).ref i h) :=
  tuple_map_of_pure N (fn.LEFT_UNARY_OP op) (fun I h => std_get I h a) s (fun _ => rfl)

theorem AGG_UN_OP.right_step {T : Type} {N : Nat} (step : T → T) (a : aggregate T N) :
    (∀ i (hi : i < N),
      (AGG_UN_OP.right (fn.RIGHT_UNARY_OP step) Ref.self a).1.ref i hi = a.ref i hi) ∧
    (∀ i (hi : i < N),
      (AGG_UN_OP.right (fn.RIGHT_UNARY_OP step) Ref.self a).2.ref i hi
        = step (a.ref i hi)) := by
  have key := tuple_map_pointwise (Ref.self : Ref (aggregate T N) (aggregate T N))
    (fun _ _ => rfl) (fn.RIGHT_UNARY_OP step) (fun I h => std_get I h Ref.self)
    (fun _ _ t => t) (fun _ _ t => step t) (fun _ _ _ => rfl) a
  exact ⟨key.1, key.2.1⟩

theorem visit_ascending_aliased {T : Type} {N : Nat} (g : T → T → T) (k : Nat) (hk : k < N)
    (a : aggregate T N) (m : Nat) (hm : m ≤ N) (i : Nat) (hi : i < N) :
    (visit_ascending
        (fun t : Ref (aggregate T N) T => fn.BINARY_OP_ASSIGN g t (std_get k hk Ref.self))
        (fun I h => std_get I h Ref.self) m hm a).2.ref i hi
      = if i < m then
          g (a.ref i hi) (if k < i then g (a.ref k hk) (a.ref k hk) else a.ref k hk)
        else a.ref i hi := by
  induction m generalizing i with
  | zero => simp [visit_ascending]
  | succ m ih =>
    have hmN : m < N := hm
    have hprev := fun j hj => ih (Nat.le_of_succ_le hm) j hj
    have hstep : (visit_ascending
        (fun t : Ref (aggregate T N) T => fn.BINARY_OP_ASSIGN g t (std_get k hk Ref.self))
        (fun I h => std_get I h Ref.self) (m + 1) hm a).2
        = ((visit_ascending
            (fun t : Ref (aggregate T N) T =>
              fn.BINARY_OP_ASSIGN g t (std_get k hk Ref.self))
            (fun I h => std_get I h Ref.self) m (Nat.le_of_succ_le hm) a).2).store m
          (g (((visit_ascending
              (fun t : Ref (aggregate T N) T =>
                fn.BINARY_OP_ASSIGN g t (std_get k hk Ref.self))
              (fun I h => std_get I h Ref.self) m (Nat.le_of_succ_le hm) a).2).ref m hmN)
            (((visit_ascending
              (fun t : Ref (aggregate T N) T =>
                fn.BINARY_OP_ASSIGN g t (std_get k hk Ref.self))
              (fun I h => std_get I h Ref.self) m (Nat.le_of_succ_le hm) a).2).ref k hk)) :=
      rfl
    rw [hstep, aggregate.store_ref, hprev i hi, hprev m hmN, hprev k hk]
    simp only [Nat.lt_irrefl, if_false]
    by_cases him : i = m
    · subst him
      simp
    · by_cases hlt : i < m
      · simp [him, hlt, Nat.lt_succ_of_lt hlt]
      · have : ¬ i < m + 1 := by omega
        simp [him, hlt, this]

theorem AGG_BIN_OP_ASSIGN.seq_scalar_aliased {T : Type} {N : Nat} (g : T → T → T) (k : Nat)
    (hk : k < N) (a : aggregate T N) (i : Nat) (hi : i < N) :
    (AGG_BIN_OP_ASSIGN.seq_scalar (fn.BINARY_OP_ASSIGN g) Ref.self (std_get k hk Ref.self)
        a).2.ref i hi
      = g (a.ref i hi) (if k < i then g (a.ref k hk) (a.ref k hk) else a.ref k hk) := by
  have h := visit_ascending_aliased g k hk a N (le_refl N) i hi
  rw [if_pos hi] at h
  rw [← h]
  simp only [AGG_BIN_OP_ASSIGN.seq_scalar]
  rw [tuple_map_void_eq_visit]

theorem ElementTypes.has_iff {CT : Type} (E : ElementTypes CT) (NAME : fn.Comparison) :
    E.has NAME = true ↔ ∃ r, E.TU NAME = some r ∧ E.is_convertible r E.bool = true := by
  cases h : E.TU NAME <;>
    simp [ElementTypes.has, has_trait, sfinae.check_function, sfinae.check_return,
      sfinae.invokeable, h]

theorem ElementTypes.isSome_of_has {CT : Type} (E : ElementTypes CT) (NAME : fn.Comparison)
    (h : E.has NAME = true) : (E.TU NAME).isSome = true := by
  obtain ⟨r, hr, -⟩ := (E.has_iff NAME).mp h
  simp [hr]

theorem resolve_nested_nested (N M : Nat) :
    resolve (.seq (.seq .scalar M) N) (.seq (.seq .scalar M) N)
      = some ⟨.seq (.seq .scalar M) N, .seq_seq N (.seq_seq M .builtin)⟩ := by
  rw [resolve]
  simp [resolve_seq_seq]

theorem nested_seq_seq_seq_seq_ref {σ S : Type} {N M : Nat} (op : S → S → S)
    (a b : Ref σ (aggregate (aggregate S M) N)) (s : σ)
    (i j : Nat) (hi : i < N) (hj : j < M) :
    ((AGG_BIN_OP.seq_seq (AGG_BIN_OP.seq_seq (fn.BINARY_OP op)) a b s).1.ref i hi).ref j hj
      = op (((a.get s).ref i hi).ref j hj) (((b.get s).ref i hi).ref j hj) := by
  rw [(AGG_BIN_OP.seq_seq_state _ a b s (fun t u =>
    (AGG_BIN_OP.seq_seq_state _ t u s (fun _ _ => rfl)).1)).2 i hi]
  rw [AGG_BIN_OP.seq_seq_ref]
  rfl

/-- C1. For every length `N` and element operation `op : T → U → C`, the generated
`a OP b` on two length-`N` sequences of elements that are not sequences selects the
(sequence, sequence) overload and is a sequence of `C` of length exactly `N` whose
`i`-th element is `op a[i] b[i]` for every `i < N`. -/
theorem C1_seq_seq_elementwise {σ T U C : Type} {N : Nat} (op : T → U → C)
    (a : Ref σ (aggregate T N)) (b : Ref σ (aggregate U N)) (s : σ) :
    resolve (.seq .scalar N) (.seq .scalar N)
        = some ⟨.seq .scalar N, .seq_seq N .builtin⟩ ∧
    (AGG_BIN_OP.seq_seq (fn.BINARY_OP op) a b s).1.elem.length = N ∧
      ∀ i (h : i < N), (AGG_BIN_OP.seq_seq (fn.BINARY_OP op) a b s).1.ref i h
        = op ((a.get s).ref i h) ((b.get s).ref i h) :=
  ⟨resolve_seq_seq N, (AGG_BIN_OP.seq_seq (fn.BINARY_OP op) a b s).1.size_eq,
    fun i h => AGG_BIN_OP.seq_seq_ref op a b s i h⟩

/-- C1 (instance). `{1,2,3} + {1,2,3}` is `{2,4,6}`. -/
theorem C1_seq_seq_elementwise_witness :
    (AGG_BIN_OP.seq_seq (fn.BINARY_OP fun a b : Int => a + b) Ref.fst Ref.snd
      (test.x, test.x)).1.elem = [2, 4, 6] := by
  decide

/-- C2. Scalar broadcast law, for a scalar that is not a sequence: `a OP s` selects the
(sequence, scalar) overload, `(a OP s)[i] = op a[i] s` and `a OP s` is the sequence
`a OP (N copies of s)`; symmetrically `s OP a` selects (scalar, sequence),
`(s OP a)[i] = opl s a[i]` with the scalar on the left, and `s OP a` is
`(N copies of s) OP a`. -/
theorem C2_scalar_broadcast {σ T U C D : Type} {N : Nat} (op : T → U → C)
    (opl : U → T → D) (a : Ref σ (aggregate T N)) (sc : Ref σ U) (s : σ) :
    resolve (.seq .scalar N) .scalar = some ⟨.seq .scalar N, .seq_scalar N .builtin⟩ ∧
    resolve .scalar (.seq .scalar N) = some ⟨.seq .scalar N, .scalar_seq N .builtin⟩ ∧
    (∀ i (h : i < N), (AGG_BIN_OP.seq_scalar (fn.BINARY_OP op) a sc s).1.ref i h
        = op ((a.get s).ref i h) (sc.get s)) ∧
    (AGG_BIN_OP.seq_scalar (fn.BINARY_OP op) a sc s).1
        = (AGG_BIN_OP.seq_seq (fn.BINARY_OP op) a
            (Ref.temporary (copies N (sc.get s))) s).1 ∧
    (∀ i (h : i < N), (AGG_BIN_OP.scalar_seq (fn.BINARY_OP opl) sc a s).1.ref i h
        = opl (sc.get s) ((a.get s).ref i h)) ∧
    (AGG_BIN_OP.scalar_seq (fn.BINARY_OP opl) sc a s).1
        = (AGG_BIN_OP.seq_seq (fn.BINARY_OP opl)
            (Ref.temporary (copies N (sc.get s))) a s).1 := by
  refine ⟨resolve_seq_scalar N, resolve_scalar_seq N,
    fun i h => AGG_BIN_OP.seq_scalar_ref op a sc s i h, ?_,
    fun i h => AGG_BIN_OP.scalar_seq_ref opl sc a s i h, ?_⟩
  · apply aggregate.ext_ref
    intro i hi
    rw [AGG_BIN_OP.seq_scalar_ref, AGG_BIN_OP.seq_seq_ref]
    simp [Ref.temporary, copies_ref]
  · apply aggregate.ext_ref
    intro i hi
    rw [AGG_BIN_OP.scalar_seq_ref, AGG_BIN_OP.seq_seq_ref]
    simp [Ref.temporary, copies_ref]

/-- C2 (instance). For `x = {2,4,6}`, `x + 3` is `{5,7,9}` and `3 - x` is `{1,-1,-3}`. -/
theorem C2_scalar_broadcast_witness :
    (AGG_BIN_OP.seq_scalar (fn.BINARY_OP fun a b : Int => a + b) Ref.self (Ref.temporary 3)
      (⟨[2, 4, 6], rfl⟩ : aggregate Int 3)).1.elem = [5, 7, 9] ∧
    (AGG_BIN_OP.scalar_seq (fn.BINARY_OP fun a b : Int => a - b) (Ref.temporary 3) Ref.self
      (⟨[2, 4, 6], rfl⟩ : aggregate Int 3)).1.elem = [1, -1, -3] := by
  decide

/-- C3 (amended). Nested operands of equal lengths `N = M`: `vv + x` selects the
(sequence, sequence) overload, whose element operation is (sequence, scalar), so
`(vv + x)[i][j] = vv[i][j] + x[i]`, and `(x + vv)[i][j] = x[i] + vv[i][j]`. When the
lengths differ, (sequence, scalar) and (scalar, sequence) are both viable and neither
is selected: the expression is ill-formed. -/
theorem C3_nested_operands {S σ : Type} (op : S → S → S) (N : Nat)
    (vv : Ref σ (aggregate (aggregate S N) N)) (x : Ref σ (aggregate S N)) (s : σ) :
    (∃ res : aggregate (aggregate S N) N,
      binary_operator op (.seq (.seq .scalar N) N) (.seq .scalar N) vv x s
        = some ⟨.seq (.seq .scalar N) N, res⟩ ∧
      ∀ i j (hi : i < N) (hj : j < N), (res.ref i hi).ref j hj
        = op (((vv.get s).ref i hi).ref j hj) ((x.get s).ref i hi)) ∧
    (∃ res : aggregate (aggregate S N) N,
      binary_operator op (.seq .scalar N) (.seq (.seq .scalar N) N) x vv s
        = some ⟨.seq (.seq .scalar N) N, res⟩ ∧
      ∀ i j (hi : i < N) (hj : j < N), (res.ref i hi).ref j hj
        = op ((x.get s).ref i hi) (((vv.get s).ref i hi).ref j hj)) ∧
    (∀ (M : Nat) (ww : Ref σ (aggregate (aggregate S M) N)) (y : Ref σ (aggregate S M)),
      N ≠ M →
      has_NAME (.seq .scalar M) (.seq .scalar M) = true ∧
      has_NAME (.seq (.seq .scalar M) N) .scalar = true ∧
      has_NAME .scalar (.seq (.seq .scalar M) N) = true ∧
      binary_operator op (.seq (.seq .scalar M) N) (.seq .scalar M) ww y s = none ∧
      binary_operator op (.seq .scalar M) (.seq (.seq .scalar M) N) y ww s = none) := by
  refine ⟨⟨_, ?_, fun i j hi hj => nested_seq_seq_ref op vv x s i j hi hj⟩,
    ⟨_, ?_, fun i j hi hj => seq_seq_nested_ref op x vv s i j hi hj⟩, ?_⟩
  · simp only [binary_operator, resolve_nested_seq]
    rfl
  · simp only [binary_operator, resolve_seq_nested]
    rfl
  · intro M ww y h
    simp only [binary_operator, has_NAME, resolve_seq_seq, resolve_seq2_scalar,
      resolve_scalar_seq2, resolve_nested_ambiguous N M h, resolve_ambiguous_nested N M h,
      Option.isSome_some, and_self]

/-- C3 (counterexample). The test's operands `x = {1,2,3}` and `vv = {x,x,x}`: `vv + x`
is `{{2,3,4},{3,4,5},{4,5,6}}`, not the claimed `{{2,4,6},{2,4,6},{2,4,6}}`, so
`(vv + x)[i][j] = vv[i][j] + x[j]` does not hold (it fails at `i = 0`, `j = 1`). -/
theorem C3_counterexample :
    ∃ res : aggregate (aggregate Int 3) 3,
      binary_operator (fun a b : Int => a + b) (.seq (.seq .scalar 3) 3) (.seq .scalar 3)
        Ref.fst Ref.snd (test.vv, test.x) = some ⟨.seq (.seq .scalar 3) 3, res⟩ ∧
      res.elem.map (fun r => r.elem) = [[2, 3, 4], [3, 4, 5], [4, 5, 6]] ∧
      res.elem.map (fun r => r.elem) ≠ [[2, 4, 6], [2, 4, 6], [2, 4, 6]] ∧
      ¬ ∀ i j (hi : i < 3) (hj : j < 3),
        (res.ref i hi).ref j hj = (test.vv.ref i hi).ref j hj + test.x.ref j hj := by
  refine ⟨(AGG_BIN_OP.seq_seq (AGG_BIN_OP.seq_scalar (fn.BINARY_OP fun a b : Int => a + b))
    Ref.fst Ref.snd (test.vv, test.x)).1, ?_, ?_, ?_, ?_⟩
  · simp only [binary_operator, resolve_nested_seq]
    rfl
  · decide
  · decide
  · intro h
    have h01 := h 0 1 (by decide) (by decide)
    revert h01
    decide

/-- C9. Stream output of a sequence of length `N >= 1`: the stream receives the texts of
`a[0]`, ..., `a[N-1]` in index order with exactly one space between consecutive
elements, nothing before the first and nothing after the last. -/
theorem C9_stream_output {T : Type} {N : Nat} (text : T → List Char) (s : List Char)
    (a : aggregate T N) (hN : 1 ≤ N) :
    operator_lshift text s a = some (s ++ List.intercalate [' '] (a.elem.map text)) ∧
    (N = 1 → operator_lshift text s a = some (s ++ text (a.ref 0 hN))) := by
  refine ⟨operator_lshift_spec text s a hN, ?_⟩
  intro h1
  subst h1
  rw [operator_lshift_spec text s a hN]
  obtain ⟨xs, hx⟩ := a
  match xs, hx with
  | [x], _ => simp [List.intercalate, aggregate.ref]

/-- C9 (witness). The sequence `{1,2,3}` is written as `1 2 3`. -/
theorem C9_stream_output_witness :
    1 ≤ 3 ∧ operator_lshift test.text [] test.x = some ['1', ' ', '2', ' ', '3'] :=
  ⟨by decide, (C9_stream_output test.text [] test.x (by decide)).1⟩

/-- C10 (code at the failing input). For `N = 0` the copied range is
`[a.begin(), a.end()-1)`, whose end lies before its start: the copy reads `*a.begin()`
outside the empty storage, so the operator has no defined result instead of writing
nothing. -/
theorem C10_zero_length_stream {T : Type} (text : T → List Char) (s : List Char)
    (a : aggregate T 0) :
    a.end_ - 1 < a.begin ∧ a.deref a.begin = none ∧ operator_lshift text s a = none := by
  refine ⟨by simp [aggregate.begin, aggregate.end_], ?_, operator_lshift_zero text s a⟩
  have : a.elem = [] := List.length_eq_zero.mp a.size_eq
  simp [aggregate.deref, aggregate.begin, this]

/-- C11. Zero-length elementwise application: the index sequence generated for `N = 0` is
empty; the value-producing `tuple_map`, the three overloads of every generated binary
operator and the unary operators return a length-0 sequence and leave the state as it
was whatever the element operation would do, and an instrumented element operation
records no invocation. -/
theorem C11_zero_length_value_mode {σ X R T U C : Type} (f : X → σ → R × σ)
    (ts : (I : Nat) → I < 0 → X) (NAME : Ref σ T → Ref σ U → σ → C × σ)
    (UNARY : Ref σ T → σ → C × σ) (a : Ref σ (aggregate T 0)) (b : Ref σ (aggregate U 0))
    (x : Ref σ T) (y : Ref σ U) (s : σ) :
    make_index_sequence 0 = [] ∧
    ((tuple_map 0 f ts s).1.elem = [] ∧ (tuple_map 0 f ts s).2 = s) ∧
    (tuple_map 0 (traced f) ts (s, [])).2.2 = [] ∧
    ((AGG_BIN_OP.seq_seq NAME a b s).1.elem = [] ∧ (AGG_BIN_OP.seq_seq NAME a b s).2 = s) ∧
    ((AGG_BIN_OP.seq_scalar NAME a y s).1.elem = [] ∧
      (AGG_BIN_OP.seq_scalar NAME a y s).2 = s) ∧
    ((AGG_BIN_OP.scalar_seq NAME x b s).1.elem = [] ∧
      (AGG_BIN_OP.scalar_seq NAME x b s).2 = s) ∧
    ((AGG_UN_OP.left UNARY a s).1.elem = [] ∧ (AGG_UN_OP.left UNARY a s).2 = s) ∧
    ((AGG_UN_OP.right UNARY a s).1.elem = [] ∧ (AGG_UN_OP.right UNARY a s).2 = s) :=
  ⟨rfl, ⟨rfl, rfl⟩, rfl, ⟨rfl, rfl⟩, ⟨rfl, rfl⟩, ⟨rfl, rfl⟩, ⟨rfl, rfl⟩, ⟨rfl, rfl⟩⟩

/-- C11 (instance). For an empty sequence `a`, `a + a` and `-a` are empty, `a` is
unchanged, and an instrumented element operation records no invocation. -/
theorem C11_zero_length_value_mode_witness :
    (AGG_BIN_OP.seq_seq (fn.BINARY_OP fun x y : Int => x + y) Ref.self Ref.self
      (⟨[], rfl⟩ : aggregate Int 0)).1.elem = [] ∧
    (AGG_UN_OP.left (fn.LEFT_UNARY_OP fun v : Int => -v) Ref.self
      (⟨[], rfl⟩ : aggregate Int 0)).1.elem = [] ∧
    (AGG_UN_OP.right (fn.RIGHT_UNARY_OP fun v : Int => v + 1) Ref.self
      (⟨[], rfl⟩ : aggregate Int 0)).2.elem = [] ∧
    (tuple_map 0 (traced fun (i : Nat) (t : Nat) => (t + i, t + i)) (fun I _ => I)
      (0, [])).2 = (0, []) := by
  decide

/-- C13. Two-mode capability predicate: `sfinae::check_function` and every `has_NAME`
built on it always yield a boolean, never an error; with the result type omitted the
boolean is true exactly when the application is well-formed, with a result type `R`
supplied exactly when the application is well-formed and its result type converts to
`R`, and it is false when the application is ill-formed; `has_NAME` on operand shapes
is the detector with the result type omitted. -/
theorem C13_capability_predicate {CT : Type} (is_convertible : CT → CT → Bool)
    (call : Option CT) (R : CT) :
    has_trait is_convertible none call = sfinae.check_function is_convertible none call ∧
    has_trait is_convertible (some R) call
      = sfinae.check_function is_convertible (some R) call ∧
    (∃ v, sfinae.check_function is_convertible none call = some v) ∧
    (∃ v, sfinae.check_function is_convertible (some R) call = some v) ∧
    (sfinae.check_function is_convertible none call = some true ↔ ∃ r, call = some r) ∧
    (sfinae.check_function is_convertible (some R) call = some true
      ↔ ∃ r, call = some r ∧ is_convertible r R = true) ∧
    (call = none →
      sfinae.check_function is_convertible none call = some false ∧
      sfinae.check_function is_convertible (some R) call = some false) ∧
    (∀ (conv : Ty → Ty → Bool) (t1 t2 : Ty),
      sfinae.check_function conv none ((resolve t1 t2).map fun o => o.1)
        = some (has_NAME t1 t2)) := by
  have hshape : ∀ (conv : Ty → Ty → Bool) (t1 t2 : Ty),
      sfinae.check_function conv none ((resolve t1 t2).map fun o => o.1)
        = some (has_NAME t1 t2) := by
    intro conv t1 t2
    cases h : resolve t1 t2 <;> simp [sfinae.check_function, sfinae.invokeable, has_NAME, h]
  cases call with
  | none =>
    simpa [has_trait, sfinae.check_function, sfinae.check_return, sfinae.invokeable]
      using hshape
  | some r =>
    simpa [has_trait, sfinae.check_function, sfinae.check_return, sfinae.invokeable]
      using hshape

/-- C13 (instance). With types `0` (`int`), `1` (`double`), `2` (`std::string`) where only
`int` and `double` convert to each other: `int + double` has type `double`, so
`has_plus<int,double>` and `has_plus<int,double,int>` are true and
`has_plus<int,double,std::string>` is false; an ill-formed application gives false in
both modes. -/
theorem C13_capability_predicate_witness :
    sfinae.check_function (fun a b : Nat => decide (a = b ∨ (a ≤ 1 ∧ b ≤ 1))) none (some 1)
      = some true ∧
    sfinae.check_function (fun a b : Nat => decide (a = b ∨ (a ≤ 1 ∧ b ≤ 1))) (some 0)
      (some 1) = some true ∧
    sfinae.check_function (fun a b : Nat => decide (a = b ∨ (a ≤ 1 ∧ b ≤ 1))) (some 2)
      (some 1) = some false ∧
    sfinae.check_function (fun a b : Nat => decide (a = b ∨ (a ≤ 1 ∧ b ≤ 1))) none none
      = some false ∧
    sfinae.check_function (fun a b : Nat => decide (a = b ∨ (a ≤ 1 ∧ b ≤ 1))) (some 0) none
      = some false := by
  decide

/-- C14. Non-assigning operators do not mutate their inputs: with a non-mutating element
operator, each of the three overloads of a generated binary operator and each left-unary
operator leaves the whole state as it was, so every operand sequence and the scalar
operand hold exactly what they held before; the result is returned by value, built
from the operands' elements. -/
theorem C14_operands_unchanged {σ T U C D : Type} {N : Nat} (op : T → U → C) (un : T → D)
    (a : Ref σ (aggregate T N)) (b : Ref σ (aggregate U N)) (x : Ref σ T) (y : Ref σ U)
    (s : σ) :
    ((AGG_BIN_OP.seq_seq (fn.BINARY_OP op) a b s).2 = s ∧
      a.get (AGG_BIN_OP.seq_seq (fn.BINARY_OP op) a b s).2 = a.get s ∧
      b.get (AGG_BIN_OP.seq_seq (fn.BINARY_OP op) a b s).2 = b.get s) ∧
    ((AGG_BIN_OP.seq_scalar (fn.BINARY_OP op) a y s).2 = s ∧
      a.get (AGG_BIN_OP.seq_scalar (fn.BINARY_OP op) a y s).2 = a.get s ∧
      y.get (AGG_BIN_OP.seq_scalar (fn.BINARY_OP op) a y s).2 = y.get s) ∧
    ((AGG_BIN_OP.scalar_seq (fn.BINARY_OP op) x b s).2 = s ∧
      x.get (AGG_BIN_OP.scalar_seq (fn.BINARY_OP op) x b s).2 = x.get s ∧
      b.get (AGG_BIN_OP.scalar_seq (fn.BINARY_OP op) x b s).2 = b.get s) ∧
    ((AGG_UN_OP.left (fn.LEFT_UNARY_OP un) a s).2 = s ∧
      a.get (AGG_UN_OP.left (fn.LEFT_UNARY_OP un) a s).2 = a.get s ∧
      ∀ i (h : i < N), (AGG_UN_OP.left (fn.LEFT_UNARY_OP un) a s).1.ref i h
        = un ((a.get s).ref i h)) := by
  have h1 := (AGG_BIN_OP.seq_seq_state (fn.BINARY_OP op) a b s (fun _ _ => rfl)).1
  have h2 := (AGG_BIN_OP.seq_scalar_state (fn.BINARY_OP op) a y s (fun _ _ => rfl)).1
  have h3 := (AGG_BIN_OP.scalar_seq_state (fn.BINARY_OP op) x b s (fun _ _ => rfl)).1
  have h4 := AGG_UN_OP.left_pure un a s
  exact ⟨⟨h1, by rw [h1], by rw [h1]⟩, ⟨h2, by rw [h2], by rw [h2]⟩,
    ⟨h3, by rw [h3], by rw [h3]⟩, ⟨h4.1, by rw [h4.1], h4.2⟩⟩

/-- C14 (instance). For `x = {1,2,3}`: `-x` is `{-1,-2,-3}` and `x + x` is `{2,4,6}`,
and `x` is still `{1,2,3}` after each. -/
theorem C14_operands_unchanged_witness :
    (AGG_UN_OP.left (fn.LEFT_UNARY_OP fun v : Int => -v) Ref.self test.x).1.elem
      = [-1, -2, -3] ∧
    (AGG_UN_OP.left (fn.LEFT_UNARY_OP fun v : Int => -v) Ref.self test.x).2.elem
      = [1, 2, 3] ∧
    (AGG_BIN_OP.seq_seq (fn.BINARY_OP fun a b : Int => a + b) Ref.self Ref.self
      test.x).1.elem = [2, 4, 6] ∧
    (AGG_BIN_OP.seq_seq (fn.BINARY_OP fun a b : Int => a + b) Ref.self Ref.self
      test.x).2.elem = [1, 2, 3] := by
  decide

/-- C15 (amended). Scalar operand aliasing the left sequence: in `a OP= a[k]` the scalar is
a reference to the element `a[k]` and is read anew at every position, so positions
`i <= k` use the value `a[k]` had before the call and positions `i > k` use the already
updated `a[k] = g (old a[k]) (old a[k])`; a copy of `a[k]` held outside `a` is used
unchanged at every position. -/
theorem C15_aliased_scalar {T : Type} {N : Nat} (g : T → T → T) (k : Nat) (hk : k < N)
    (a : aggregate T N) :
    (∀ i (hi : i < N), i ≤ k →
      (AGG_BIN_OP_ASSIGN.seq_scalar (fn.BINARY_OP_ASSIGN g) Ref.self (std_get k hk Ref.self)
          a).2.ref i hi
        = g (a.ref i hi) (a.ref k hk)) ∧
    (∀ i (hi : i < N), k < i →
      (AGG_BIN_OP_ASSIGN.seq_scalar (fn.BINARY_OP_ASSIGN g) Ref.self (std_get k hk Ref.self)
          a).2.ref i hi
        = g (a.ref i hi) (g (a.ref k hk) (a.ref k hk))) ∧
    (∀ i (hi : i < N),
      (AGG_BIN_OP_ASSIGN.seq_scalar (fn.BINARY_OP_ASSIGN g) Ref.fst Ref.snd
          (a, a.ref k hk)).2.1.ref i hi
        = g (a.ref i hi) (a.ref k hk)) := by
  refine ⟨?_, ?_, (AGG_BIN_OP_ASSIGN.seq_scalar_frame g a (a.ref k hk)).2⟩
  · intro i hi hik
    rw [AGG_BIN_OP_ASSIGN.seq_scalar_aliased, if_neg (by omega)]
  · intro i hi hki
    rw [AGG_BIN_OP_ASSIGN.seq_scalar_aliased, if_pos hki]

/-- C15 (witness). For `a = {2,4,6}` and `a /= a[0]`, position `1` ends as `4 / (2 / 2)`. -/
theorem C15_aliased_scalar_witness :
    0 < 3 ∧
    (AGG_BIN_OP_ASSIGN.seq_scalar (fn.BINARY_OP_ASSIGN fun x y : Int => x / y) Ref.self
        (std_get 0 (by decide) Ref.self) (⟨[2, 4, 6], rfl⟩ : aggregate Int 3)).2.ref 1
        (by decide)
      = (⟨[2, 4, 6], rfl⟩ : aggregate Int 3).ref 1 (by decide)
        / ((⟨[2, 4, 6], rfl⟩ : aggregate Int 3).ref 0 (by decide)
          / (⟨[2, 4, 6], rfl⟩ : aggregate Int 3).ref 0 (by decide)) :=
  ⟨by decide,
    (C15_aliased_scalar (fun x y : Int => x / y) 0 (by decide)
      (⟨[2, 4, 6], rfl⟩ : aggregate Int 3)).2.1 1 (by decide) (by decide)⟩

/-- C15 (counterexample). The normalisation `a /= a[0]` of `a = {2,4,6}` leaves
`a = {1,4,6}`, not the claimed `{1,2,3}`: position `0` stores `a[0] = 1` and the later
positions divide by that new value. -/
theorem C15_counterexample :
    (AGG_BIN_OP_ASSIGN.seq_scalar (fn.BINARY_OP_ASSIGN fun x y : Int => x / y) Ref.self
        (std_get 0 (by decide) Ref.self) (⟨[2, 4, 6], rfl⟩ : aggregate Int 3)).2.elem
      = [1, 4, 6] ∧
    (AGG_BIN_OP_ASSIGN.seq_scalar (fn.BINARY_OP_ASSIGN fun x y : Int => x / y) Ref.self
        (std_get 0 (by decide) Ref.self) (⟨[2, 4, 6], rfl⟩ : aggregate Int 3)).2.elem
      ≠ [1, 2, 3] ∧
    ¬ ∀ i (hi : i < 3),
      (AGG_BIN_OP_ASSIGN.seq_scalar (fn.BINARY_OP_ASSIGN fun x y : Int => x / y) Ref.self
          (std_get 0 (by decide) Ref.self) (⟨[2, 4, 6], rfl⟩ : aggregate Int 3)).2.ref i hi
        = (⟨[2, 4, 6], rfl⟩ : aggregate Int 3).ref i hi
          / (⟨[2, 4, 6], rfl⟩ : aggregate Int 3).ref 0 (by decide) := by
  refine ⟨by decide, by decide, ?_⟩
  intro h
  have h1 := h 1 (by decide)
  revert h1
  decide

/-- C16 (amended). The sequence operators `!=`, `>` and `<=` take part in overload
resolution exactly when the element types support the operator of the same name with
a result convertible to `bool`; the operator each is defined through is required only
for its body to compile: the body of `!=` compiles exactly when the sequence `==` is
selectable, the body of `>` only if the sequence `<` on the swapped operands is, and
the body of `<=` only if the sequence `>` and that `<` are. -/
theorem C16_comparison_guards {CT : Type} (E : ElementTypes CT) :
    (operator_ne.enabled E = true
      ↔ ∃ r, E.TU .not_equal_to = some r ∧ E.is_convertible r E.bool = true) ∧
    (operator_gt.enabled E = true
      ↔ ∃ r, E.TU .greater = some r ∧ E.is_convertible r E.bool = true) ∧
    (operator_le.enabled E = true
      ↔ ∃ r, E.TU .less_equal = some r ∧ E.is_convertible r E.bool = true) ∧
    (operator_ne.body E = true ↔ operator_eq.enabled E = true) ∧
    (operator_gt.body E = true → operator_lt.enabled E.swap = true) ∧
    (operator_le.body E = true →
      operator_gt.enabled E = true ∧ operator_lt.enabled E.swap = true) := by
  refine ⟨E.has_iff _, E.has_iff _, E.has_iff _, ?_, ?_, ?_⟩
  · constructor
    · intro h
      simp only [operator_ne.body, Bool.and_eq_true] at h
      exact h.1
    · intro h
      simp only [operator_ne.body, Bool.and_eq_true]
      exact ⟨h, E.isSome_of_has _ h⟩
  · intro h
    simp only [operator_gt.body, Bool.and_eq_true] at h
    exact h.1
  · intro h
    simp only [operator_le.body, operator_gt.body, Bool.and_eq_true] at h
    exact ⟨h.1, h.2.1⟩

/-- C16 (counterexample). For an element type that defines only `<=`: the sequence `<=` is
selectable although the sequence `>` it is defined through is not, so its body does
not compile; and the sequence `>=` is selectable although the element type has no
`>=` and no `<`. -/
theorem C16_counterexample :
    operator_le.enabled test.only_less_equal = true ∧
    operator_gt.enabled test.only_less_equal = false ∧
    operator_lt.enabled test.only_less_equal.swap = false ∧
    operator_le.body test.only_less_equal = false ∧
    operator_ge.enabled test.only_less_equal = true ∧
    test.only_less_equal.has .greater_equal = false ∧
    operator_lt.enabled test.only_less_equal = false ∧
    operator_ge.body test.only_less_equal = false := by
  decide

/-- C17. Post-increment and post-decrement: `a++` (`a--`) returns a new length-`N` sequence
holding the values `a[i]` had before the call and leaves every `a[i]` stepped exactly
once by the element type's own increment (decrement) `step`; on integers every `a[i]`
is increased (decreased) by exactly one. -/
theorem C17_post_increment {T : Type} {N : Nat} (step : T → T) (a : aggregate T N)
    (b : aggregate Int N) :
    ((AGG_UN_OP.right (fn.RIGHT_UNARY_OP step) Ref.self a).1.elem.length = N ∧
      (AGG_UN_OP.right (fn.RIGHT_UNARY_OP step) Ref.self a).2.elem.length = N) ∧
    (∀ i (hi : i < N),
      (AGG_UN_OP.right (fn.RIGHT_UNARY_OP step) Ref.self a).1.ref i hi = a.ref i hi) ∧
    (∀ i (hi : i < N),
      (AGG_UN_OP.right (fn.RIGHT_UNARY_OP step) Ref.self a).2.ref i hi
        = step (a.ref i hi)) ∧
    (∀ i (hi : i < N),
      (AGG_UN_OP.right (fn.RIGHT_UNARY_OP fun v : Int => v + 1) Ref.self b).1.ref i hi
          = b.ref i hi ∧
      (AGG_UN_OP.right (fn.RIGHT_UNARY_OP fun v : Int => v + 1) Ref.self b).2.ref i hi
          = b.ref i hi + 1) ∧
    (∀ i (hi : i < N),
      (AGG_UN_OP.right (fn.RIGHT_UNARY_OP fun v : Int => v - 1) Ref.self b).1.ref i hi
          = b.ref i hi ∧
      (AGG_UN_OP.right (fn.RIGHT_UNARY_OP fun v : Int => v - 1) Ref.self b).2.ref i hi
          = b.ref i hi - 1) :=
  ⟨⟨(AGG_UN_OP.right (fn.RIGHT_UNARY_OP step) Ref.self a).1.size_eq,
      (AGG_UN_OP.right (fn.RIGHT_UNARY_OP step) Ref.self a).2.size_eq⟩,
    (AGG_UN_OP.right_step step a).1, (AGG_UN_OP.right_step step a).2,
    fun i hi => ⟨(AGG_UN_OP.right_step _ b).1 i hi, (AGG_UN_OP.right_step _ b).2 i hi⟩,
    fun i hi => ⟨(AGG_UN_OP.right_step _ b).1 i hi, (AGG_UN_OP.right_step _ b).2 i hi⟩⟩

/-- C17 (instance). For `x = {1,2,3}`, `x++` returns `{1,2,3}` and leaves `x = {2,3,4}`;
`x--` returns `{1,2,3}` and leaves `x = {0,1,2}`. -/
theorem C17_post_increment_witness :
    (AGG_UN_OP.right (fn.RIGHT_UNARY_OP fun v : Int => v + 1) Ref.self test.x).1.elem
      = [1, 2, 3] ∧
    (AGG_UN_OP.right (fn.RIGHT_UNARY_OP fun v : Int => v + 1) Ref.self test.x).2.elem
      = [2, 3, 4] ∧
    (AGG_UN_OP.right (fn.RIGHT_UNARY_OP fun v : Int => v - 1) Ref.self test.x).1.elem
      = [1, 2, 3] ∧
    (AGG_UN_OP.right (fn.RIGHT_UNARY_OP fun v : Int => v - 1) Ref.self test.x).2.elem
      = [0, 1, 2] := by
  decide

/-- C19. Recursive elementwise application on equally shaped nested sequences: for two
length-`N` sequences of length-`M` sequences, `a + b` selects the (sequence, sequence)
overload at both levels and is a length-`N` sequence of length-`M` sequences with
`(a + b)[i][j] = a[i][j] + b[i][j]` for every `i < N` and `j < M`. -/
theorem C19_nested_elementwise {S σ : Type} (op : S → S → S) (N M : Nat)
    (a b : Ref σ (aggregate (aggregate S M) N)) (s : σ) :
    ∃ res : aggregate (aggregate S M) N,
      binary_operator op (.seq (.seq .scalar M) N) (.seq (.seq .scalar M) N) a b s
        = some ⟨.seq (.seq .scalar M) N, res⟩ ∧
      res.elem.length = N ∧
      ∀ i (hi : i < N), (res.ref i hi).elem.length = M ∧
        ∀ j (hj : j < M), (res.ref i hi).ref j hj
          = op (((a.get s).ref i hi).ref j hj) (((b.get s).ref i hi).ref j hj) := by
  refine ⟨(AGG_BIN_OP.seq_seq (AGG_BIN_OP.seq_seq (fn.BINARY_OP op)) a b s).1, ?_,
    (AGG_BIN_OP.seq_seq (AGG_BIN_OP.seq_seq (fn.BINARY_OP op)) a b s).1.size_eq,
    fun i hi => ⟨((AGG_BIN_OP.seq_seq (AGG_BIN_OP.seq_seq (fn.BINARY_OP op)) a b s).1.ref
      i hi).size_eq, fun j hj => nested_seq_seq_seq_seq_ref op a b s i j hi hj⟩⟩
  simp only [binary_operator, resolve_nested_nested]
  rfl

/-- C19 (instance). The test's `vv + vv` with `vv = {x,x,x}`, `x = {1,2,3}`, is
`{{2,4,6},{2,4,6},{2,4,6}}`. -/
theorem C19_nested_elementwise_witness :
    (AGG_BIN_OP.seq_seq (AGG_BIN_OP.seq_seq (fn.BINARY_OP fun a b : Int => a + b))
      Ref.self Ref.self test.vv).1.elem.map (fun r => r.elem)
      = [[2, 4, 6], [2, 4, 6], [2, 4, 6]] := by
  decide

end agg
